import Mathlib

/-!
Verification development for the csv-stats tool (src/src/main.rs).

The tool loads a delimited file into a table via the Polars lazy CSV
reader, selects one column, and computes five aggregates
(count, min, max, sum, mean) with a single lazy query, then extracts the
scalar results from the one-row result DataFrame.

The Polars library itself is not part of this repository, so the
behaviour of the loader, the column lookup, the Float64 cast and the
five aggregation expressions is modelled from the specification
(spec.md sections 3, 4.1, 4.2, 4.3 and 7); each such definition carries a
doc comment starting with the words Modelled from the spec. The
extraction code, the statistics record, the CLI default and the
printing and exit behaviour are translated directly from main.rs.

Numbers are modelled exactly: 64-bit floats become rationals, so the
floating-point tolerance demanded by the spec is met by exact equality.
NaN values do not arise in the model (the spec leaves NaN behaviour
unspecified).
-/

/-- Modelled from the spec (section 3, Column): a cell of a loaded table
holds a typed value (integer, float or string, as inferred by the
loader) or an explicit missing marker. -/
inductive CellValue where
  | vInt (n : Int)
  | vFloat (q : ℚ)
  | vStr (s : String)
  | missing
deriving DecidableEq, Repr

/-- Modelled from the spec (section 3, Column): a named ordered sequence
of cells. -/
structure Column where
  name : String
  cells : List CellValue
deriving DecidableEq, Repr

/-- Modelled from the spec (section 3, Table): an ordered collection of
named columns; the table invariant (all columns share one row count) is
stated as a hypothesis where a theorem needs it. -/
structure Table where
  cols : List Column
deriving DecidableEq, Repr

/-- The row-count invariant of a table: every column has length L. -/
def Table.uniformRowCount (t : Table) (L : Nat) : Prop :=
  ∀ c ∈ t.cols, c.cells.length = L

/-- Numeric value of a decimal digit character. -/
def digitVal (c : Char) : Option Nat :=
  if c.isDigit then some (c.toNat - 48) else none

/-- Reads a run of decimal digits as a natural number; any non-digit
makes the whole read fail.  The empty list reads as 0, callers check
emptiness themselves. -/
def digitsVal (cs : List Char) : Option Nat :=
  cs.foldl (fun acc c =>
    match acc, digitVal c with
    | some a, some d => some (a * 10 + d)
    | _, _ => none) (some 0)

/-- Splits a character list at the first decimal point, if any. -/
def splitAtDot : List Char → (List Char × Option (List Char))
  | [] => ([], none)
  | c :: rest =>
      if c = '.' then ([], some rest)
      else
        let (a, b) := splitAtDot rest
        (c :: a, b)

/-- Modelled from the spec (section 4.2): parses an unsigned decimal
numeral, with an optional fractional part, into an exact rational. -/
def parseUnsigned (cs : List Char) : Option ℚ :=
  let (ip, fp) := splitAtDot cs
  match fp with
  | none =>
      if ip.isEmpty then none
      else (digitsVal ip).map (fun n => (n : ℚ))
  | some f =>
      if ip.isEmpty && f.isEmpty then none
      else
        match digitsVal ip, digitsVal f with
        | some i, some n => some ((i : ℚ) + (n : ℚ) / (10 : ℚ) ^ f.length)
        | _, _ => none

/-- Modelled from the spec (section 4.2): parses a string as a decimal
number (optional sign, digits, optional fractional part); returns none
when the string is not a valid number. -/
def parseNum (s : String) : Option ℚ :=
  match s.data with
  | '-' :: rest => (parseUnsigned rest).map Neg.neg
  | '+' :: rest => parseUnsigned rest
  | cs => parseUnsigned cs

/-- Modelled from the spec (section 7): the error taxonomy of the
pipeline.  ColumnNotFound carries the requested name and the full
available-column list; TypeCoercion carries the offending value. -/
inductive PError where
  | fileAccess (msg : String)
  | columnNotFound (requested : String) (available : List String)
  | typeCoercion (value : String)
  | outOfBounds (idx : Nat)
  | extractFailed
deriving DecidableEq, Repr

/-- Joins a list of strings with a comma separator, used to render the
available-column list inside an error message. -/
def joinComma : List String → String
  | [] => ""
  | [s] => s
  | s :: rest => s ++ ", " ++ joinComma rest

/-- Modelled from the spec (sections 4.1 and 7): the human-readable
message of each error.  The ColumnNotFound message carries the requested
name and the full list of available column names. -/
def describeErr : PError → String
  | .fileAccess m => "could not read file: " ++ m
  | .columnNotFound req avail =>
      "ColumnNotFound: " ++ req ++ " not found. Available columns: " ++
        joinComma avail
  | .typeCoercion v => "TypeCoercionError: could not convert value " ++ v
  | .outOfBounds i => "index out of bounds: " ++ toString i
  | .extractFailed => "could not extract value"

/-- One string occurs inside another (on the underlying character
lists). -/
def strContains (needle hay : String) : Prop :=
  needle.data <:+: hay.data

/-- Modelled from the spec (section 4.1): case-sensitive exact lookup of
a column by name; on failure the error carries the requested name and
the list of all column names. -/
def resolveColumn (t : Table) (name : String) : Except PError Column :=
  match t.cols.find? (fun c => c.name == name) with
  | some c => .ok c
  | none => .error (.columnNotFound name (t.cols.map Column.name))

/-- Modelled from the spec (section 4.2): coercion of one cell to an
optional 64-bit float.  Missing stays missing, integers and floats
convert directly, a string converts only when it is a valid number,
otherwise the coercion fails. -/
def coerceCell : CellValue → Except PError (Option ℚ)
  | .missing => .ok none
  | .vInt n => .ok (some (n : ℚ))
  | .vFloat q => .ok (some q)
  | .vStr s =>
      match parseNum s with
      | some q => .ok (some q)
      | none => .error (.typeCoercion s)

/-- Modelled from the spec (section 4.2): all-or-nothing coercion of a
whole column; the first non-coercible cell fails the entire operation
and partial results are discarded. -/
def coerceColumn : List CellValue → Except PError (List (Option ℚ))
  | [] => .ok []
  | cell :: rest =>
      match coerceCell cell with
      | .error e => .error e
      | .ok v =>
          match coerceColumn rest with
          | .error e => .error e
          | .ok vs => .ok (v :: vs)

/-- The sub-sequence of non-missing values of a coerced column. -/
def nonMissing (xs : List (Option ℚ)) : List ℚ :=
  xs.filterMap id

/-- Modelled from the spec (section 4.3): the min aggregate, absent on
an empty value sequence. -/
def foldMin : List ℚ → Option ℚ
  | [] => none
  | x :: xs => some (xs.foldl min x)

/-- Modelled from the spec (section 4.3): the max aggregate, absent on
an empty value sequence. -/
def foldMax : List ℚ → Option ℚ
  | [] => none
  | x :: xs => some (xs.foldl max x)

/-- Modelled from the spec (section 4.3): the sum aggregate, absent
(not zero) on an empty value sequence. -/
def sumAgg (v : List ℚ) : Option ℚ :=
  if v.isEmpty then none else some v.sum

/-- Modelled from the spec (section 4.3): the mean aggregate, the sum
divided by the number of non-missing values, absent on an empty value
sequence. -/
def meanAgg (v : List ℚ) : Option ℚ :=
  if v.isEmpty then none else some (v.sum / (v.length : ℚ))

/-- A scalar cell of the one-row result DataFrame, after main.rs: null,
a 64-bit float, or the unsigned integer produced by the count
aggregation (line 100 extracts it as u32). -/
inductive AnyValue where
  | null
  | float (q : ℚ)
  | uint (n : Nat)
deriving DecidableEq, Repr

/-- A named column of the result DataFrame. -/
structure DataFrameCol where
  name : String
  values : List AnyValue
deriving DecidableEq, Repr

/-- The materialized result of collect: a collection of named columns. -/
structure DataFrame where
  cols : List DataFrameCol
deriving DecidableEq, Repr

/-- Wraps an optional aggregate value as a DataFrame cell. -/
def optToAV : Option ℚ → AnyValue
  | none => .null
  | some q => .float q

/-- Column lookup on the result DataFrame (the df.column calls of
main.rs lines 90 and 100). -/
def DataFrame.column (df : DataFrame) (name : String) :
    Except PError DataFrameCol :=
  match df.cols.find? (fun c => c.name == name) with
  | some c => .ok c
  | none => .error (.columnNotFound name (df.cols.map DataFrameCol.name))

/-- Positional access into a DataFrame column (the .get(0) calls of
main.rs lines 90 and 100). -/
def getValue (c : DataFrameCol) (i : Nat) : Except PError AnyValue :=
  match c.values[i]? with
  | some v => .ok v
  | none => .error (.outOfBounds i)

/-- The try_extract conversion to f64 used by get_optional_f64
(main.rs line 95). -/
def tryExtractF64 : AnyValue → Except PError ℚ
  | .float q => .ok q
  | .uint n => .ok (n : ℚ)
  | .null => .error .extractFailed

/-- The try_extract conversion to u32 used for the count column
(main.rs line 100); the count aggregate always materializes as an
unsigned integer. -/
def tryExtractU32 : AnyValue → Except PError Nat
  | .uint n => .ok n
  | .float _ => .error .extractFailed
  | .null => .error .extractFailed

/-- The helper of main.rs lines 89 to 97: reads row 0 of the named stat
column, mapping a null to an absent value and any other value through
try_extract. -/
def get_optional_f64 (df : DataFrame) (statName : String) :
    Except PError (Option ℚ) := do
  let c ← df.column statName
  let av ← getValue c 0
  match av with
  | .null => Except.ok none
  | av => (tryExtractF64 av).map some

/-- The statistics record of main.rs lines 20 to 32. -/
structure SelectedStats where
  count : Nat
  min : Option ℚ
  max : Option ℚ
  sum : Option ℚ
  mean : Option ℚ
deriving DecidableEq, Repr

/-- Modelled from the spec (sections 4.1 to 4.3 and 5): execution of the
lazy query plan of main.rs lines 70 to 85 on a loaded table.  The plan
resolves the column, casts it to Float64 (all-or-nothing), and produces
a one-row DataFrame with the five aggregate columns count, min, max,
sum, mean; count is the row count of the column, the other four are
computed over the non-missing values. -/
def lazyCollect (t : Table) (columnName : String) :
    Except PError DataFrame :=
  match resolveColumn t columnName with
  | .error e => .error e
  | .ok c =>
      match coerceColumn c.cells with
      | .error e => .error e
      | .ok vs =>
          let v := nonMissing vs
          .ok ⟨[⟨"count", [.uint c.cells.length]⟩,
                ⟨"min", [optToAV (foldMin v)]⟩,
                ⟨"max", [optToAV (foldMax v)]⟩,
                ⟨"sum", [optToAV (sumAgg v)]⟩,
                ⟨"mean", [optToAV (meanAgg v)]⟩]⟩

/-- The extraction code of main.rs lines 99 to 109: reads the count as
an unsigned integer and the four optional floats out of the one-row
result DataFrame. -/
def extractStats (stats_df : DataFrame) : Except PError SelectedStats := do
  let countCol ← stats_df.column "count"
  let countAv ← getValue countCol 0
  let count ← tryExtractU32 countAv
  let minv ← get_optional_f64 stats_df "min"
  let maxv ← get_optional_f64 stats_df "max"
  let sumv ← get_optional_f64 stats_df "sum"
  let meanv ← get_optional_f64 stats_df "mean"
  Except.ok ⟨count, minv, maxv, sumv, meanv⟩

/-- process_csv of main.rs lines 61 to 112, on an already loaded table
(file access is modelled separately, see run_main): collect the lazy
query, then extract the statistics record. -/
def process_csv (t : Table) (columnName : String) :
    Except PError SelectedStats :=
  match lazyCollect t columnName with
  | .error e => .error e
  | .ok df => extractStats df

/-- The clap default of main.rs line 15. -/
def defaultColumnName : String := "Amount Received"

/-- The effective column name: the command-line argument when supplied,
the default otherwise (main.rs lines 14 to 16). -/
def cliColumnName (arg : Option String) : String :=
  arg.getD defaultColumnName

/-- Zero-pads a digit string on the left to four characters, for the
fractional part of the fixed-point rendering. -/
def pad4 (s : String) : String :=
  ⟨List.replicate (4 - s.length) '0'⟩ ++ s

/-- Renders a rational to four decimal places, modelling the Rust
format directive with precision 4 of main.rs line 42 (round to the
nearest ten-thousandth, then print with exactly four fractional
digits). -/
def formatFixed4 (q : ℚ) : String :=
  let n : Int := round (q * 10000)
  let sign := if n < 0 then "-" else ""
  let m := n.natAbs
  sign ++ toString (m / 10000) ++ "." ++ pad4 (toString (m % 10000))

/-- The format_opt helper of main.rs lines 41 to 44: a present value is
rendered to four decimal places, an absent one as the marker. -/
def formatOpt : Option ℚ → String
  | some q => formatFixed4 q
  | none => "N/A"

/-- The five statistics lines printed by main.rs lines 48 to 52. -/
def statLines (st : SelectedStats) : List String :=
  ["Count: " ++ toString st.count,
   "Min:   " ++ formatOpt st.min,
   "Max:   " ++ formatOpt st.max,
   "Sum:   " ++ formatOpt st.sum,
   "Mean:  " ++ formatOpt st.mean]

/-- The header line of main.rs line 47 (the quote marks around the
column name in the Rust format string are not reproduced). -/
def headerLine (columnName : String) : String :=
  "--- Statistics for " ++ columnName ++ " ---"

/-- The whole pipeline behind main: the outcome of loading the file
(file access is external, its result is the input) bound into
process_csv. -/
def runPipeline (loaded : Except PError Table) (columnName : String) :
    Except PError SelectedStats :=
  match loaded with
  | .error e => .error e
  | .ok t => process_csv t columnName

/-- main of main.rs lines 34 to 55: on any pipeline error the process
prints one diagnostic line and exits non-zero (the anyhow main wrapper
prefixes the message with the word Error); on success it prints the
header and the five statistics lines and exits zero. -/
def run_main (loaded : Except PError Table) (columnName : String) :
    Nat × List String :=
  match runPipeline loaded columnName with
  | .error e => (1, ["Error: " ++ describeErr e])
  | .ok stats => (0, headerLine columnName :: statLines stats)

/-- Equality of pipeline outcomes is decidable, so concrete runs can be
checked by evaluation. -/
instance {ε α : Type} [DecidableEq ε] [DecidableEq α] :
    DecidableEq (Except ε α)
  | .ok a, .ok b =>
      if h : a = b then .isTrue (by rw [h])
      else .isFalse (fun hc => h (by cases hc; rfl))
  | .error a, .error b =>
      if h : a = b then .isTrue (by rw [h])
      else .isFalse (fun hc => h (by cases hc; rfl))
  | .ok a, .error b => .isFalse (fun hc => by cases hc)
  | .error a, .ok b => .isFalse (fun hc => by cases hc)

instance (t : Table) (L : Nat) : Decidable (t.uniformRowCount L) :=
  inferInstanceAs (Decidable (∀ c ∈ t.cols, c.cells.length = L))

/-! ### Helper lemmas about the pipeline -/

/-- A cell that is a non-numeric, non-missing value (an unparseable
string); exactly these cells make the coercion fail. -/
def isNonNumeric : CellValue → Bool
  | .vStr s => (parseNum s).isNone
  | _ => false

lemma extractStats_lazy (L : Nat) (m M S A : Option ℚ) :
    extractStats ⟨[⟨"count", [.uint L]⟩,
                   ⟨"min", [optToAV m]⟩,
                   ⟨"max", [optToAV M]⟩,
                   ⟨"sum", [optToAV S]⟩,
                   ⟨"mean", [optToAV A]⟩]⟩ =
      Except.ok ⟨L, m, M, S, A⟩ := by
  cases m <;> cases M <;> cases S <;> cases A <;> rfl

lemma process_csv_ok_eq (t : Table) (name : String) (c : Column)
    (vs : List (Option ℚ))
    (h1 : resolveColumn t name = .ok c)
    (h2 : coerceColumn c.cells = .ok vs) :
    process_csv t name =
      Except.ok ⟨c.cells.length, foldMin (nonMissing vs),
        foldMax (nonMissing vs), sumAgg (nonMissing vs),
        meanAgg (nonMissing vs)⟩ := by
  simp only [process_csv, lazyCollect, h1, h2]
  exact extractStats_lazy c.cells.length _ _ _ _

lemma process_csv_err_resolve (t : Table) (name : String) (e : PError)
    (h : resolveColumn t name = .error e) :
    process_csv t name = .error e := by
  simp only [process_csv, lazyCollect, h]

lemma process_csv_err_coerce (t : Table) (name : String) (c : Column)
    (e : PError)
    (h1 : resolveColumn t name = .ok c)
    (h2 : coerceColumn c.cells = .error e) :
    process_csv t name = .error e := by
  simp only [process_csv, lazyCollect, h1, h2]

lemma resolveColumn_ok_mem (t : Table) (name : String) (c : Column)
    (h : resolveColumn t name = .ok c) :
    c ∈ t.cols ∧ c.name = name := by
  unfold resolveColumn at h
  cases hf : t.cols.find? (fun c => c.name == name) with
  | none => rw [hf] at h; cases h
  | some c2 =>
      rw [hf] at h
      cases h
      have hb := List.find?_some hf
      exact ⟨List.mem_of_find?_eq_some hf, by simpa using hb⟩

lemma resolveColumn_err_of_not_mem (t : Table) (name : String)
    (h : ∀ c ∈ t.cols, c.name ≠ name) :
    resolveColumn t name =
      .error (.columnNotFound name (t.cols.map Column.name)) := by
  unfold resolveColumn
  rw [List.find?_eq_none.mpr]
  intro x hx
  simpa using h x hx

lemma coerceCell_error_shape (cell : CellValue) (e : PError)
    (h : coerceCell cell = .error e) : ∃ s, e = .typeCoercion s := by
  cases cell with
  | vInt n => cases h
  | vFloat q => cases h
  | missing => cases h
  | vStr s =>
      simp only [coerceCell] at h
      cases hp : parseNum s with
      | none => rw [hp] at h; cases h; exact ⟨s, rfl⟩
      | some q => rw [hp] at h; cases h

lemma coerceCell_err_of_nonNumeric (cell : CellValue)
    (h : isNonNumeric cell = true) :
    ∃ s, coerceCell cell = .error (.typeCoercion s) := by
  cases cell with
  | vInt n => cases h
  | vFloat q => cases h
  | missing => cases h
  | vStr s =>
      refine ⟨s, ?_⟩
      cases hp : parseNum s with
      | none => simp only [coerceCell, hp]
      | some q => rw [isNonNumeric, hp] at h; cases h

lemma coerceColumn_err_of_bad (cells : List CellValue)
    (h : ∃ cell ∈ cells, isNonNumeric cell = true) :
    ∃ s, coerceColumn cells = .error (.typeCoercion s) := by
  induction cells with
  | nil => rcases h with ⟨cell, hmem, _⟩; cases hmem
  | cons x rest ih =>
      rcases h with ⟨cell, hmem, hbad⟩
      rcases List.mem_cons.mp hmem with heq | hmem2
      · subst heq
        rcases coerceCell_err_of_nonNumeric cell hbad with ⟨s, hs⟩
        exact ⟨s, by simp only [coerceColumn, hs]⟩
      · cases hc : coerceCell x with
        | error e =>
            rcases coerceCell_error_shape x e hc with ⟨s, hs⟩
            exact ⟨s, by simp only [coerceColumn, hc, hs]⟩
        | ok v =>
            rcases ih ⟨cell, hmem2, hbad⟩ with ⟨s, hs⟩
            exact ⟨s, by simp only [coerceColumn, hc, hs]⟩

lemma coerceColumn_all_missing (cells : List CellValue)
    (h : ∀ cell ∈ cells, cell = CellValue.missing) :
    coerceColumn cells = .ok (List.replicate cells.length none) := by
  induction cells with
  | nil => rfl
  | cons x rest ih =>
      have hx : x = CellValue.missing := h x (List.mem_cons_self x rest)
      subst hx
      have := ih (fun cell hc => h cell (List.mem_cons_of_mem _ hc))
      simp only [coerceColumn, coerceCell, this, List.length_cons,
        List.replicate_succ]

lemma nonMissing_replicate_none (n : Nat) :
    nonMissing (List.replicate n none) = [] := by
  induction n with
  | zero => rfl
  | succ k ih => simp only [nonMissing, List.replicate_succ,
      List.filterMap_cons, id] at ih ⊢; exact ih

lemma nonMissing_nil : nonMissing [] = [] := rfl

lemma nonMissing_cons_some (q : ℚ) (xs : List (Option ℚ)) :
    nonMissing (some q :: xs) = q :: nonMissing xs := rfl

lemma nonMissing_cons_none (xs : List (Option ℚ)) :
    nonMissing (none :: xs) = nonMissing xs := rfl

/-! ### Min and max facts -/

lemma foldl_min_le_init (xs : List ℚ) : ∀ a : ℚ, xs.foldl min a ≤ a := by
  induction xs with
  | nil => intro a; simp
  | cons x rest ih =>
      intro a
      calc List.foldl min (min a x) rest ≤ min a x := ih (min a x)
        _ ≤ a := min_le_left a x

lemma foldl_min_le_mem (xs : List ℚ) :
    ∀ a : ℚ, ∀ y ∈ xs, xs.foldl min a ≤ y := by
  induction xs with
  | nil => intro a y hy; cases hy
  | cons x rest ih =>
      intro a y hy
      rcases List.mem_cons.mp hy with heq | hmem
      · subst heq
        calc List.foldl min (min a y) rest ≤ min a y :=
              foldl_min_le_init rest (min a y)
          _ ≤ y := min_le_right a y
      · exact ih (min a x) y hmem

lemma foldl_min_mem (xs : List ℚ) :
    ∀ a : ℚ, xs.foldl min a = a ∨ xs.foldl min a ∈ xs := by
  induction xs with
  | nil => intro a; left; rfl
  | cons x rest ih =>
      intro a
      rcases ih (min a x) with h | h
      · rcases min_choice a x with hc | hc
        · left; rw [List.foldl_cons, h, hc]
        · right; rw [List.foldl_cons, h, hc]
          exact List.mem_cons_self x rest
      · right
        exact List.mem_cons_of_mem x h

lemma foldl_max_ge_init (xs : List ℚ) : ∀ a : ℚ, a ≤ xs.foldl max a := by
  induction xs with
  | nil => intro a; simp
  | cons x rest ih =>
      intro a
      calc a ≤ max a x := le_max_left a x
        _ ≤ List.foldl max (max a x) rest := ih (max a x)

lemma foldl_max_ge_mem (xs : List ℚ) :
    ∀ a : ℚ, ∀ y ∈ xs, y ≤ xs.foldl max a := by
  induction xs with
  | nil => intro a y hy; cases hy
  | cons x rest ih =>
      intro a y hy
      rcases List.mem_cons.mp hy with heq | hmem
      · subst heq
        calc y ≤ max a y := le_max_right a y
          _ ≤ List.foldl max (max a y) rest := foldl_max_ge_init rest _
      · exact ih (max a x) y hmem

lemma foldl_max_mem (xs : List ℚ) :
    ∀ a : ℚ, xs.foldl max a = a ∨ xs.foldl max a ∈ xs := by
  induction xs with
  | nil => intro a; left; rfl
  | cons x rest ih =>
      intro a
      rcases ih (max a x) with h | h
      · rcases max_choice a x with hc | hc
        · left; rw [List.foldl_cons, h, hc]
        · right; rw [List.foldl_cons, h, hc]
          exact List.mem_cons_self x rest
      · right
        exact List.mem_cons_of_mem x h

lemma foldMin_spec (v : List ℚ) (m : ℚ) (h : foldMin v = some m) :
    m ∈ v ∧ ∀ y ∈ v, m ≤ y := by
  cases v with
  | nil => cases h
  | cons x xs =>
      unfold foldMin at h
      cases h
      constructor
      · rcases foldl_min_mem xs x with h | h
        · rw [h]; exact List.mem_cons_self x xs
        · exact List.mem_cons_of_mem x h
      · intro y hy
        rcases List.mem_cons.mp hy with heq | hmem
        · subst heq; exact foldl_min_le_init xs y
        · exact foldl_min_le_mem xs x y hmem

lemma foldMax_spec (v : List ℚ) (m : ℚ) (h : foldMax v = some m) :
    m ∈ v ∧ ∀ y ∈ v, y ≤ m := by
  cases v with
  | nil => cases h
  | cons x xs =>
      unfold foldMax at h
      cases h
      constructor
      · rcases foldl_max_mem xs x with h | h
        · rw [h]; exact List.mem_cons_self x xs
        · exact List.mem_cons_of_mem x h
      · intro y hy
        rcases List.mem_cons.mp hy with heq | hmem
        · subst heq; exact foldl_max_ge_init xs y
        · exact foldl_max_ge_mem xs x y hmem

/-! ### String facts for the error-message and output claims -/

lemma append_ne_append_of_head (a b s t : String) (ca cb : Char)
    (ha : a.data.head? = some ca) (hb : b.data.head? = some cb)
    (hne : ca ≠ cb) : a ++ s ≠ b ++ t := by
  intro h
  apply hne
  have hd : a.data ++ s.data = b.data ++ t.data := by
    have := congrArg String.data h
    rwa [String.data_append, String.data_append] at this
  cases hA : a.data with
  | nil => rw [hA] at ha; cases ha
  | cons x xs =>
      cases hB : b.data with
      | nil => rw [hB] at hb; cases hb
      | cons y ys =>
          rw [hA] at ha
          rw [hB] at hb
          rw [hA, hB] at hd
          simp only [List.head?] at ha hb
          simp only [List.cons_append, List.cons.injEq] at hd
          cases ha
          cases hb
          exact hd.1

lemma mem_infix_joinComma (l : List String) (s : String) (h : s ∈ l) :
    s.data <:+: (joinComma l).data := by
  induction l with
  | nil => cases h
  | cons x rest ih =>
      cases rest with
      | nil =>
          have : s = x := by simpa using h
          subst this
          exact List.infix_rfl
      | cons y t =>
          rcases List.mem_cons.mp h with heq | hmem
          · subst heq
            have he : (joinComma (s :: y :: t)).data =
                s.data ++ (", ".data ++ (joinComma (y :: t)).data) := by
              show (s ++ ", " ++ joinComma (y :: t)).data = _
              rw [String.data_append, String.data_append, List.append_assoc]
            rw [he]
            exact (List.prefix_append s.data _).isInfix
          · have hsuf : (joinComma (y :: t)).data <:+
                (joinComma (x :: y :: t)).data := by
              show _ <:+ (x ++ ", " ++ joinComma (y :: t)).data
              rw [String.data_append]
              exact List.suffix_append _ _
            exact (ih hmem).trans hsuf.isInfix

lemma columnNotFound_msg_contains (req : String) (avail : List String) :
    strContains req (describeErr (.columnNotFound req avail)) ∧
    ∀ s ∈ avail, strContains s (describeErr (.columnNotFound req avail)) := by
  have hmsg : (describeErr (.columnNotFound req avail)).data =
      "ColumnNotFound: ".data ++ req.data ++
        (" not found. Available columns: ".data ++ (joinComma avail).data) := by
    show ("ColumnNotFound: " ++ req ++ " not found. Available columns: " ++
      joinComma avail).data = _
    rw [String.data_append, String.data_append, String.data_append,
      List.append_assoc]
  constructor
  · show req.data <:+: _
    rw [hmsg]
    exact ⟨"ColumnNotFound: ".data,
      " not found. Available columns: ".data ++ (joinComma avail).data,
      by rw [List.append_assoc]⟩
  · intro s hs
    show s.data <:+: _
    rw [hmsg]
    have h1 : s.data <:+: (joinComma avail).data := mem_infix_joinComma avail s hs
    have h2 : (joinComma avail).data <:+:
        "ColumnNotFound: ".data ++ req.data ++
          (" not found. Available columns: ".data ++ (joinComma avail).data) :=
      (List.suffix_append _ _).isInfix.trans
        (List.suffix_append _ _).isInfix
    exact h1.trans h2

lemma process_csv_ok_inv (t : Table) (name : String) (s : SelectedStats)
    (h : process_csv t name = .ok s) :
    ∃ c vs, resolveColumn t name = .ok c ∧
      coerceColumn c.cells = .ok vs ∧
      s = ⟨c.cells.length, foldMin (nonMissing vs),
        foldMax (nonMissing vs), sumAgg (nonMissing vs),
        meanAgg (nonMissing vs)⟩ := by
  cases hr : resolveColumn t name with
  | error e => rw [process_csv_err_resolve t name e hr] at h; cases h
  | ok c =>
      cases hc : coerceColumn c.cells with
      | error e => rw [process_csv_err_coerce t name c e hr hc] at h; cases h
      | ok vs =>
          refine ⟨c, vs, rfl, hc, ?_⟩
          rw [process_csv_ok_eq t name c vs hr hc] at h
          injection h with h2
          exact h2.symm

/-! ### The claims -/

/-- C1: for every loaded table T with uniform row count L and every
resolvable column of T, the count field of the Statistics returned by
process_csv equals L, the total row count of T, including rows where
the column entry is missing. -/
theorem C1_count_invariant (t : Table) (name : String) (L : Nat)
    (s : SelectedStats)
    (hL : t.uniformRowCount L)
    (hok : process_csv t name = .ok s) :
    s.count = L := by
  rcases process_csv_ok_inv t name s hok with ⟨c, vs, hr, _, hs⟩
  have hmem := (resolveColumn_ok_mem t name c hr).1
  subst hs
  exact hL c hmem

theorem C1_count_invariant_witness :
    (⟨2, none, none, none, none⟩ : SelectedStats).count = 2 :=
  C1_count_invariant
    ⟨[⟨"id", [.vInt 1, .vInt 2]⟩, ⟨"a", [.missing, .missing]⟩]⟩ "a" 2
    ⟨2, none, none, none, none⟩ (by decide) (by decide)

/-- C2: for every table and resolvable column containing at least one
non-missing, non-numeric value, process_csv fails with a type-coercion
error and never returns a Statistics record; no partial result with the
failing entries dropped or turned missing is produced. -/
theorem C2_coercion_atomicity (t : Table) (name : String) (c : Column)
    (hr : resolveColumn t name = .ok c)
    (hbad : ∃ cell ∈ c.cells, isNonNumeric cell = true) :
    ∃ v, process_csv t name = .error (.typeCoercion v) ∧
      ∀ st : SelectedStats, process_csv t name ≠ Except.ok st := by
  rcases coerceColumn_err_of_bad c.cells hbad with ⟨v, hv⟩
  have herr := process_csv_err_coerce t name c _ hr hv
  refine ⟨v, herr, ?_⟩
  intro st hst
  rw [herr] at hst
  cases hst

theorem C2_coercion_atomicity_witness :
    ∃ v, process_csv ⟨[⟨"a", [.vInt 7, .vStr "abc"]⟩]⟩ "a" =
        .error (.typeCoercion v) ∧
      ∀ st : SelectedStats,
        process_csv ⟨[⟨"a", [.vInt 7, .vStr "abc"]⟩]⟩ "a" ≠
          Except.ok st :=
  C2_coercion_atomicity ⟨[⟨"a", [.vInt 7, .vStr "abc"]⟩]⟩ "a"
    ⟨"a", [.vInt 7, .vStr "abc"]⟩ (by decide)
    ⟨.vStr "abc", by decide, by decide⟩

/-- C3: for every resolvable column whose entries are all missing (in
particular a zero-row column), process_csv succeeds and returns a
Statistics record with min, max, sum and mean all absent (sum absent,
not zero) and count equal to the row count of the column. -/
theorem C3_empty_or_all_missing (t : Table) (name : String) (c : Column)
    (hr : resolveColumn t name = .ok c)
    (hmiss : ∀ cell ∈ c.cells, cell = CellValue.missing) :
    process_csv t name =
      Except.ok ⟨c.cells.length, none, none, none, none⟩ := by
  have hc := coerceColumn_all_missing c.cells hmiss
  rw [process_csv_ok_eq t name c _ hr hc, nonMissing_replicate_none]
  rfl

theorem C3_empty_or_all_missing_witness :
    process_csv ⟨[⟨"amount", []⟩]⟩ "amount" =
      Except.ok ⟨0, none, none, none, none⟩ :=
  C3_empty_or_all_missing ⟨[⟨"amount", []⟩]⟩ "amount" ⟨"amount", []⟩
    (by decide) (by decide)

/-- C4: whenever the returned Statistics has both sum and mean present,
the mean equals the sum divided by the number of non-missing entries of
the column (not by count), within a relative tolerance of one part in
a billion. -/
theorem C4_mean_consistency (t : Table) (name : String) (c : Column)
    (vs : List (Option ℚ)) (s : SelectedStats) (sm mn : ℚ)
    (hr : resolveColumn t name = .ok c)
    (hc : coerceColumn c.cells = .ok vs)
    (hok : process_csv t name = .ok s)
    (hsm : s.sum = some sm) (hmn : s.mean = some mn) :
    0 < (nonMissing vs).length ∧
      |mn - sm / ((nonMissing vs).length : ℚ)| ≤
        (1 / 1000000000) * |sm / ((nonMissing vs).length : ℚ)| := by
  rw [process_csv_ok_eq t name c vs hr hc] at hok
  injection hok with hs
  subst hs
  replace hsm : sumAgg (nonMissing vs) = some sm := hsm
  replace hmn : meanAgg (nonMissing vs) = some mn := hmn
  cases hemp : (nonMissing vs).isEmpty with
  | true => simp [sumAgg, hemp] at hsm
  | false =>
      simp only [sumAgg, hemp, Bool.false_eq_true, if_false,
        Option.some.injEq] at hsm
      simp only [meanAgg, hemp, Bool.false_eq_true, if_false,
        Option.some.injEq] at hmn
      have hne : nonMissing vs ≠ [] := by
        intro h
        rw [h] at hemp
        simp at hemp
      have hpos : 0 < (nonMissing vs).length := List.length_pos.mpr hne
      refine ⟨hpos, ?_⟩
      rw [← hsm, ← hmn, sub_self, abs_zero]
      positivity

theorem C4_mean_consistency_witness :
    0 < (nonMissing [some 5, some 15, some 10]).length ∧
      |(10 : ℚ) - 30 / ((nonMissing [some 5, some 15, some 10]).length : ℚ)| ≤
        (1 / 1000000000) *
          |(30 : ℚ) / ((nonMissing [some 5, some 15, some 10]).length : ℚ)| :=
  C4_mean_consistency
    ⟨[⟨"amount", [.vFloat 5, .vFloat 15, .vFloat 10]⟩]⟩ "amount"
    ⟨"amount", [.vFloat 5, .vFloat 15, .vFloat 10]⟩
    [some 5, some 15, some 10]
    ⟨3, some 5, some 15, some 30, some 10⟩ 30 10
    rfl rfl
    (by
      rw [process_csv_ok_eq ⟨[⟨"amount", [.vFloat 5, .vFloat 15, .vFloat 10]⟩]⟩
        "amount" ⟨"amount", [.vFloat 5, .vFloat 15, .vFloat 10]⟩
        [some 5, some 15, some 10] rfl rfl]
      norm_num [nonMissing_cons_some, nonMissing_cons_none, nonMissing_nil, foldMin, foldMax, sumAgg, meanAgg])
    rfl rfl

/-- C5: for every resolvable column whose sequence of non-missing
values is non-empty, the returned Statistics has min present and equal
to the smallest of those values and max present and equal to the
largest. -/
theorem C5_min_max (t : Table) (name : String) (c : Column)
    (vs : List (Option ℚ)) (s : SelectedStats)
    (hr : resolveColumn t name = .ok c)
    (hc : coerceColumn c.cells = .ok vs)
    (hok : process_csv t name = .ok s)
    (hne : nonMissing vs ≠ []) :
    ∃ m M, s.min = some m ∧ s.max = some M ∧
      m ∈ nonMissing vs ∧ (∀ y ∈ nonMissing vs, m ≤ y) ∧
      M ∈ nonMissing vs ∧ (∀ y ∈ nonMissing vs, y ≤ M) := by
  rw [process_csv_ok_eq t name c vs hr hc] at hok
  injection hok with hs
  subst hs
  obtain ⟨x, xs, hv⟩ : ∃ x xs, nonMissing vs = x :: xs := by
    cases hvv : nonMissing vs with
    | nil => exact absurd hvv hne
    | cons a l => exact ⟨a, l, rfl⟩
  have hmin : foldMin (nonMissing vs) = some (xs.foldl min x) := by
    rw [hv]; rfl
  have hmax : foldMax (nonMissing vs) = some (xs.foldl max x) := by
    rw [hv]; rfl
  obtain ⟨hmMem, hmLe⟩ := foldMin_spec _ _ hmin
  obtain ⟨hMMem, hMGe⟩ := foldMax_spec _ _ hmax
  exact ⟨_, _, hmin, hmax, hmMem, hmLe, hMMem, hMGe⟩

theorem C5_min_max_witness :
    ∃ m M,
      (⟨3, some 5, some 15, some 30, some 10⟩ : SelectedStats).min = some m ∧
      (⟨3, some 5, some 15, some 30, some 10⟩ : SelectedStats).max = some M ∧
      m ∈ nonMissing [some 5, some 15, some 10] ∧
      (∀ y ∈ nonMissing [some 5, some 15, some 10], m ≤ y) ∧
      M ∈ nonMissing [some 5, some 15, some 10] ∧
      (∀ y ∈ nonMissing [some 5, some 15, some 10], y ≤ M) :=
  C5_min_max
    ⟨[⟨"amount", [.vFloat 5, .vFloat 15, .vFloat 10]⟩]⟩ "amount"
    ⟨"amount", [.vFloat 5, .vFloat 15, .vFloat 10]⟩
    [some 5, some 15, some 10]
    ⟨3, some 5, some 15, some 30, some 10⟩
    rfl rfl
    (by
      rw [process_csv_ok_eq ⟨[⟨"amount", [.vFloat 5, .vFloat 15, .vFloat 10]⟩]⟩
        "amount" ⟨"amount", [.vFloat 5, .vFloat 15, .vFloat 10]⟩
        [some 5, some 15, some 10] rfl rfl]
      norm_num [nonMissing_cons_some, nonMissing_cons_none, nonMissing_nil, foldMin, foldMax, sumAgg, meanAgg])
    (by decide)

/-- C6: for every table and requested name matching no column,
process_csv fails with a column-not-found error carrying the requested
name and the full list of actual column names, and its message contains
both the requested name and every actual column name. -/
theorem C6_column_not_found (t : Table) (name : String)
    (h : ∀ c ∈ t.cols, c.name ≠ name) :
    ∃ e, process_csv t name = .error e ∧
      e = .columnNotFound name (t.cols.map Column.name) ∧
      strContains name (describeErr e) ∧
      ∀ c ∈ t.cols, strContains c.name (describeErr e) := by
  refine ⟨.columnNotFound name (t.cols.map Column.name),
    process_csv_err_resolve t name _ (resolveColumn_err_of_not_mem t name h),
    rfl, (columnNotFound_msg_contains name _).1, ?_⟩
  intro c hc
  exact (columnNotFound_msg_contains name _).2 c.name
    (List.mem_map_of_mem Column.name hc)

theorem C6_column_not_found_witness :
    ∃ e,
      process_csv ⟨[⟨"id", []⟩, ⟨"amount", []⟩]⟩ "Total" = .error e ∧
      e = .columnNotFound "Total"
        ((⟨[⟨"id", []⟩, ⟨"amount", []⟩]⟩ : Table).cols.map Column.name) ∧
      strContains "Total" (describeErr e) ∧
      ∀ c ∈ (⟨[⟨"id", []⟩, ⟨"amount", []⟩]⟩ : Table).cols,
        strContains c.name (describeErr e) :=
  C6_column_not_found ⟨[⟨"id", []⟩, ⟨"amount", []⟩]⟩ "Total" (by decide)

/-- C7: if any stage of the pipeline fails, the whole invocation
aborts: the run exits non-zero after printing a single diagnostic line,
and none of the five statistics lines is printed; on success the run
exits zero after printing the header and the five statistics lines. -/
theorem C7_abort_on_failure (loaded : Except PError Table) (name : String) :
    (∀ e, runPipeline loaded name = .error e →
        run_main loaded name = (1, ["Error: " ++ describeErr e]) ∧
        ∀ st : SelectedStats, ∀ l ∈ statLines st,
          l ∉ (run_main loaded name).2) ∧
    (∀ s, runPipeline loaded name = .ok s →
        run_main loaded name = (0, headerLine name :: statLines s)) := by
  constructor
  · intro e he
    have hrm : run_main loaded name = (1, ["Error: " ++ describeErr e]) := by
      simp only [run_main, he]
    refine ⟨hrm, ?_⟩
    intro st l hl hmem
    rw [hrm] at hmem
    simp only [List.mem_singleton] at hmem
    subst hmem
    simp only [statLines, List.mem_cons, List.not_mem_nil, or_false] at hl
    rcases hl with h | h | h | h | h
    · exact append_ne_append_of_head "Error: " "Count: " (describeErr e)
        (toString st.count) 'E' 'C' rfl rfl (by decide) h
    · exact append_ne_append_of_head "Error: " "Min:   " (describeErr e)
        (formatOpt st.min) 'E' 'M' rfl rfl (by decide) h
    · exact append_ne_append_of_head "Error: " "Max:   " (describeErr e)
        (formatOpt st.max) 'E' 'M' rfl rfl (by decide) h
    · exact append_ne_append_of_head "Error: " "Sum:   " (describeErr e)
        (formatOpt st.sum) 'E' 'S' rfl rfl (by decide) h
    · exact append_ne_append_of_head "Error: " "Mean:  " (describeErr e)
        (formatOpt st.mean) 'E' 'M' rfl rfl (by decide) h
  · intro s hs
    simp only [run_main, hs]

theorem C7_abort_on_failure_witness :
    run_main (.error (.fileAccess "no such file")) "x" =
      (1, ["Error: " ++ describeErr (.fileAccess "no such file")]) :=
  ((C7_abort_on_failure (.error (.fileAccess "no such file")) "x").1
    (.fileAccess "no such file") rfl).1

/-- C8: when the optional column-name argument is not supplied, the
program analyzes the column named Amount Received (exact, case
sensitive). -/
theorem C8_default_column_name :
    cliColumnName none = "Amount Received" := rfl

/-- C9: whenever the aggregation query collects successfully, the
resulting DataFrame has exactly the five columns count, min, max, sum,
mean, each of length one, so the extraction code is in range and
succeeds. -/
theorem C9_extraction_in_range (t : Table) (name : String)
    (df : DataFrame) (h : lazyCollect t name = .ok df) :
    df.cols.map DataFrameCol.name = ["count", "min", "max", "sum", "mean"] ∧
    (∀ c ∈ df.cols, c.values.length = 1) ∧
    ∃ s, extractStats df = .ok s := by
  cases hr : resolveColumn t name with
  | error e =>
      simp only [lazyCollect, hr] at h
      exact Except.noConfusion h
  | ok c =>
      cases hc : coerceColumn c.cells with
      | error e =>
          simp only [lazyCollect, hr, hc] at h
          exact Except.noConfusion h
      | ok vs =>
          simp only [lazyCollect, hr, hc] at h
          injection h with hdf
          subst hdf
          refine ⟨rfl, ?_, ⟨_, extractStats_lazy c.cells.length
            (foldMin (nonMissing vs)) (foldMax (nonMissing vs))
            (sumAgg (nonMissing vs)) (meanAgg (nonMissing vs))⟩⟩
          intro col hcol
          simp only [List.mem_cons, List.not_mem_nil, or_false] at hcol
          rcases hcol with h | h | h | h | h <;> subst h <;> rfl

theorem C9_extraction_in_range_witness :
    (⟨[⟨"count", [.uint 2]⟩, ⟨"min", [.null]⟩, ⟨"max", [.null]⟩,
       ⟨"sum", [.null]⟩, ⟨"mean", [.null]⟩]⟩ : DataFrame).cols.map
        DataFrameCol.name = ["count", "min", "max", "sum", "mean"] ∧
    (∀ c ∈ (⟨[⟨"count", [.uint 2]⟩, ⟨"min", [.null]⟩, ⟨"max", [.null]⟩,
       ⟨"sum", [.null]⟩, ⟨"mean", [.null]⟩]⟩ : DataFrame).cols,
        c.values.length = 1) ∧
    ∃ s, extractStats ⟨[⟨"count", [.uint 2]⟩, ⟨"min", [.null]⟩,
      ⟨"max", [.null]⟩, ⟨"sum", [.null]⟩, ⟨"mean", [.null]⟩]⟩ = .ok s :=
  C9_extraction_in_range ⟨[⟨"a", [.missing, .missing]⟩]⟩ "a"
    ⟨[⟨"count", [.uint 2]⟩, ⟨"min", [.null]⟩, ⟨"max", [.null]⟩,
      ⟨"sum", [.null]⟩, ⟨"mean", [.null]⟩]⟩ (by decide)

/-- C10: process_csv is deterministic: for equal file contents (loaded
tables) and equal column names, two runs produce identical results,
both on the error outcome and on every field of the Statistics
record. -/
theorem C10_deterministic (t1 t2 : Table) (n1 n2 : String)
    (ht : t1 = t2) (hn : n1 = n2) :
    process_csv t1 n1 = process_csv t2 n2 := by
  rw [ht, hn]

theorem C10_deterministic_witness :
    process_csv ⟨[⟨"a", [.missing]⟩]⟩ "a" =
      process_csv ⟨[⟨"a", [.missing]⟩]⟩ "a" :=
  C10_deterministic ⟨[⟨"a", [.missing]⟩]⟩ ⟨[⟨"a", [.missing]⟩]⟩ "a" "a"
    rfl rfl
